import Mathlib

/-!
Verification of the JobReady application-form flow and bilingual content
toggle (src/script.js) against its natural-language specification.

Strings are modelled as `List Char`; the DOM state touched by each
operation is modelled explicitly as record fields.
-/

namespace JobReady

/-- Whitespace characters matched by the JavaScript `\s` class and by
`String.prototype.trim` (the ASCII and common Unicode members; the source
only ever meets ASCII whitespace). -/
def isJsWhitespace (c : Char) : Bool :=
  c == ' ' || c == '\t' || c == '\n' || c == '\r' ||
  c == '\x0B' || c == '\x0C' || c == '\xA0'

/-- `String.prototype.trim`: drop whitespace from both ends. -/
def trimJs (s : List Char) : List Char :=
  ((s.dropWhile isJsWhitespace).reverse.dropWhile isJsWhitespace).reverse

/-- A character matched by the `[^\s@]` class of the email regex. -/
def isEmailChar (c : Char) : Bool :=
  !isJsWhitespace c && !(c == '@')

/-- Split a string at its first `'@'`, returning the parts before and
after it. Since `[^\s@]` never matches `'@'`, the `@` of the regex
`/^[^\s@]+@[^\s@]+\.[^\s@]+$/` always matches the first `'@'` of the
subject string. -/
def splitAtSign : List Char → Option (List Char × List Char)
  | [] => none
  | c :: rest =>
    if c == '@' then some ([], rest)
    else
      match splitAtSign rest with
      | some (l, r) => some (c :: l, r)
      | none => none

/-- True when the list has a `'.'` that is not its last element. -/
def hasDotBeforeLast : List Char → Bool
  | [] => false
  | [_] => false
  | c :: d :: rest => c == '.' || hasDotBeforeLast (d :: rest)

/-- True when the list has a `'.'` with at least one character before it
and at least one after it (the `[^\s@]+\.[^\s@]+` tail of the regex,
given that every character is in `[^\s@]`, which includes `'.'`). -/
def hasInteriorDot : List Char → Bool
  | [] => false
  | _ :: rest => hasDotBeforeLast rest

/-- The email regex `/^[^\s@]+@[^\s@]+\.[^\s@]+$/` from
`JobReadyApp.validateField` (script.js:236). -/
def emailTest (s : List Char) : Bool :=
  match splitAtSign s with
  | none => false
  | some (l, r) =>
    !l.isEmpty && l.all isEmailChar && !r.isEmpty && r.all isEmailChar &&
      hasInteriorDot r

/-- The phone regex `/^[6-9]\d{9}$/` from `JobReadyApp.validateField`
(script.js:239). -/
def phoneTest : List Char → Bool
  | [] => false
  | c :: rest =>
    (c == '6' || c == '7' || c == '8' || c == '9') &&
      rest.length == 9 && rest.all Char.isDigit

/-- Per-field validity marker, tracked in the page by the `success` /
`error` classes on the enclosing form group (absent = Untouched). -/
inductive Validity
  | Untouched
  | Valid
  | Invalid
deriving DecidableEq

/-- Snapshot of one form input: its `name`, current `value`, `required`
attribute, and the marker on its enclosing form group. -/
structure FieldState where
  name : List Char
  value : List Char
  required : Bool
  validity : Validity
deriving DecidableEq

/-- `JobReadyApp.validateField` (script.js:224-249). Returns the updated
field (the classes removed/added on its parent element, i.e. the new
validity marker) together with the returned `isValid` flag. -/
def validateFieldEff (f : FieldState) : FieldState × Bool :=
  let value := trimJs f.value
  let isValid :=
    if f.required && value.isEmpty then false
    else if !value.isEmpty then
      if f.name = "email".data then emailTest value
      else if f.name = "phone".data then phoneTest value
      else true
    else true
  let newValidity :=
    if !value.isEmpty then
      (if isValid then Validity.Valid else Validity.Invalid)
    else Validity.Untouched
  ({ f with validity := newValidity }, isValid)

/-- The classification returned by `validateField` for a field snapshot
(independent of the incoming validity marker). -/
def validateField (name value : List Char) (required : Bool) : Bool :=
  (validateFieldEff ⟨name, value, required, Validity.Untouched⟩).2

/-- `JobReadyApp.getFieldDisplayName` (script.js:267-276): friendly
display name, falling back to the raw field identifier. -/
def getFieldDisplayName (n : List Char) : List Char :=
  if n = "firstName".data then "First Name".data
  else if n = "lastName".data then "Last Name".data
  else if n = "email".data then "Email Address".data
  else if n = "phone".data then "Phone Number".data
  else if n = "address".data then "Address".data
  else n

/-- The message pushed for an invalid required field
(script.js:260). -/
def errorMessageFor (n : List Char) : List Char :=
  getFieldDisplayName n ++ (" is required or invalid.".data)

/-- `JobReadyApp.validateBusinessForm` (script.js:251-265): runs
`validateField` on every field carrying the `required` attribute (in
document order), collecting an error message for each invalid one.
Returns the fields after the marker updates, the aggregate `isValid`
flag, and the list of error messages. -/
def validateBusinessForm : List FieldState → List FieldState × Bool × List (List Char)
  | [] => ([], true, [])
  | f :: rest =>
    let r := validateBusinessForm rest
    if f.required then
      ((validateFieldEff f).1 :: r.1,
       ((validateFieldEff f).2 && r.2.1),
       (if (validateFieldEff f).2 then r.2.2
        else errorMessageFor f.name :: r.2.2))
    else (f :: r.1, r.2.1, r.2.2)

/-- Kind of a transient notification panel. -/
inductive NotifKind
  | success
  | error
  | info
deriving DecidableEq

/-- A notification created by `showNotification` (script.js:305-341). -/
structure Notification where
  kind : NotifKind
  title : List Char
  body : List Char
deriving DecidableEq

/-- State of the application-form flow: the form's fields, the number of
loader overlays currently shown, the number of in-flight simulated
submissions (created by `submitApplication`, each resolved by its own
2000 ms timer), and the notifications appended to the document. -/
structure AppState where
  fields : List FieldState
  loaders : Nat
  pendingSubmits : Nat
  notifications : List Notification
deriving DecidableEq

/-- `errors.join(' ')` (script.js:197). -/
def joinSpace (xs : List (List Char)) : List Char :=
  List.intercalate (" ".data) xs

/-- The fixed simulated processing latency of `submitApplication`
(script.js:205). -/
def simulatedDelayMs : Nat := 2000

/-- `JobReadyApp.handleFormSubmit` (script.js:191-199) together with the
synchronous prefix of `submitApplication` (script.js:201-205): validate
the form; if valid, show a loader and start the simulated-delay timer
(one more in-flight submission); otherwise append a single error
notification whose body joins all collected messages with spaces.
There is no guard on the number of in-flight submissions. -/
def handleFormSubmit (s : AppState) : AppState :=
  let r := validateBusinessForm s.fields
  if r.2.1 then
    { s with fields := r.1, loaders := s.loaders + 1,
             pendingSubmits := s.pendingSubmits + 1 }
  else
    { s with fields := r.1,
             notifications := s.notifications ++
               [⟨NotifKind.error, "Application Incomplete".data,
                 joinSpace r.2.2⟩] }

/-- `form.reset()` plus the removal of the `focused`/`success`/`error`
classes from every form group (script.js:212-215): the value returns to
the input's (empty) default and the marker is cleared. -/
def clearField (f : FieldState) : FieldState :=
  { f with value := [], validity := Validity.Untouched }

/-- The success notification of `submitApplication`
(script.js:208-210). -/
def successNotification : Notification :=
  ⟨NotifKind.success, "Application Submitted Successfully!".data,
   "Our recruitment team will contact you within 24 hours.".data⟩

/-- The continuation of `submitApplication` (script.js:207-215) that
runs when one simulated-delay timer fires: hide that loader, show the
success notification, and clear the form. (The `catch` branch of
script.js:217-221 is unreachable: the awaited promise always
resolves.) -/
def completeSubmission (s : AppState) : AppState :=
  { s with fields := s.fields.map clearField,
           loaders := s.loaders - 1,
           pendingSubmits := s.pendingSubmits - 1,
           notifications := s.notifications ++ [successNotification] }

/-- Substring test, as JavaScript `String.prototype.includes`. -/
def containsSub (p : List Char) : List Char → Bool
  | [] => p.isPrefixOf []
  | c :: rest => p.isPrefixOf (c :: rest) || containsSub p rest

/-- JavaScript `String.prototype.replace` with a string pattern:
replace the first occurrence of `pat` by `rep` (no occurrence: the
string is returned unchanged; an empty pattern matches at the start). -/
def replaceOnce (pat rep : List Char) : List Char → List Char
  | [] => if pat.isPrefixOf ([] : List Char) then rep else []
  | c :: rest =>
    if pat.isPrefixOf (c :: rest) then rep ++ (c :: rest).drop pat.length
    else c :: replaceOnce pat rep rest

/-- The two content languages of `LanguageManager`. -/
inductive Lang
  | en
  | hi
deriving DecidableEq

/-- The storage / `document.documentElement.lang` code of a language. -/
def langCode : Lang → List Char
  | .en => "en".data
  | .hi => "hi".data

/-- The language toggled to from the given one. -/
def otherLang : Lang → Lang
  | .en => .hi
  | .hi => .en

/-- A DOM element carrying both `data-en` and `data-hi` payloads;
`content` is its innerHTML (text content and markup modelled as one
character string). -/
structure TaggedElem where
  content : List Char
  dataEn : List Char
  dataHi : List Char
deriving DecidableEq

/-- An input/textarea carrying `data-en-placeholder` and
`data-hi-placeholder`. -/
structure InputElem where
  placeholder : List Char
  dataEnPlaceholder : List Char
  dataHiPlaceholder : List Char
deriving DecidableEq

/-- A select option carrying `data-en` and `data-hi` labels. -/
structure OptionElem where
  content : List Char
  dataEn : List Char
  dataHi : List Char
deriving DecidableEq

/-- State owned/touched by `LanguageManager` (script.js:548-643):
current language, the persisted `preferredLanguage` storage slot, the
bilingual-tagged elements, the bilingual placeholders and options, the
`.lang-text` toggle-button label (absent if the element is missing),
and `document.documentElement.lang`. -/
structure LMState where
  currentLanguage : Lang
  storage : Option (List Char)
  elems : List TaggedElem
  inputs : List InputElem
  options : List OptionElem
  langText : Option (List Char)
  docLang : List Char
deriving DecidableEq

/-- The literal `'<span class="highlight">'` tested for by
`updateContent` (script.js:605, 611). -/
def highlightMarker : List Char := "<span class=\"highlight\">".data

/-- The emphasized phrase re-wrapped by `updateContent` for each
language (script.js:606, 612). -/
def phraseOf : Lang → List Char
  | .en => "2 Days".data
  | .hi => "2 दिन".data

/-- The highlight-wrapped form of the emphasized phrase. -/
def wrappedPhrase (l : Lang) : List Char :=
  highlightMarker ++ (phraseOf l ++ ("</span>".data))

/-- The `data-en` / `data-hi` payload for the given language. -/
def elemData (l : Lang) (e : TaggedElem) : List Char :=
  match l with
  | .en => e.dataEn
  | .hi => e.dataHi

/-- One element's rewrite in `updateContent` (script.js:602-617): if the
current innerHTML contains the highlight marker, re-render the target
language's payload with the emphasized phrase re-wrapped (first
occurrence); otherwise replace the text content wholesale. -/
def updateElem (l : Lang) (e : TaggedElem) : TaggedElem :=
  if containsSub highlightMarker e.content then
    { e with content := replaceOnce (phraseOf l) (wrappedPhrase l) (elemData l e) }
  else
    { e with content := elemData l e }

/-- The placeholder payload for the given language. -/
def placeholderData (l : Lang) (i : InputElem) : List Char :=
  match l with
  | .en => i.dataEnPlaceholder
  | .hi => i.dataHiPlaceholder

/-- One input's rewrite in `updateFormPlaceholders`
(script.js:630-633). -/
def updateInput (l : Lang) (i : InputElem) : InputElem :=
  { i with placeholder := placeholderData l i }

/-- The option-label payload for the given language. -/
def optionData (l : Lang) (o : OptionElem) : List Char :=
  match l with
  | .en => o.dataEn
  | .hi => o.dataHi

/-- One option's rewrite in `updateFormPlaceholders`
(script.js:626-628). -/
def updateOption (l : Lang) (o : OptionElem) : OptionElem :=
  { o with content := optionData l o }

/-- The `.lang-text` label written by `updateButton`
(script.js:637-642): when current is English the button shows the Hindi
name, and vice versa. -/
def buttonLabel : Lang → List Char
  | .en => "हिंदी".data
  | .hi => "English".data

/-- `LanguageManager.updateContent` (script.js:600-635), including the
`updateFormPlaceholders` call it ends with. -/
def updateContent (s : LMState) : LMState :=
  { s with elems := s.elems.map (updateElem s.currentLanguage),
           inputs := s.inputs.map (updateInput s.currentLanguage),
           options := s.options.map (updateOption s.currentLanguage) }

/-- `LanguageManager.updateButton` (script.js:637-642): no-op when the
`.lang-text` element is absent. -/
def updateButton (s : LMState) : LMState :=
  { s with langText := s.langText.map (fun _ => buttonLabel s.currentLanguage) }

/-- `LanguageManager.switchToHindi` / `switchToEnglish`
(script.js:586-598): set the current language, rewrite content and
button, set `document.documentElement.lang`. Storage is not touched. -/
def switchToLang (l : Lang) (s : LMState) : LMState :=
  let s2 := updateButton (updateContent { s with currentLanguage := l })
  { s2 with docLang := langCode l }

/-- `LanguageManager.toggle` (script.js:570-584): switch to the other
language, then persist the new value. -/
def toggle (s : LMState) : LMState :=
  let t := if s.currentLanguage = Lang.en then switchToLang Lang.hi s
           else switchToLang Lang.en s
  { t with storage := some (langCode t.currentLanguage) }

/-- `LanguageManager.init` (script.js:562-568):
`localStorage.getItem('preferredLanguage') || 'en'` (null and the empty
string are both falsy), switching to Hindi only when the saved value is
exactly `"hi"`. Storage is never written. -/
def initLM (s : LMState) : LMState :=
  let savedLang :=
    match s.storage with
    | none => "en".data
    | some v => if v.isEmpty then "en".data else v
  if savedLang = "hi".data then switchToLang Lang.hi s else s

/-- The `LanguageManager` constructor (script.js:549-560): current
language starts as English, then `init` runs against the given storage
slot and document. -/
def newLanguageManager (storage : Option (List Char)) (elems : List TaggedElem)
    (inputs : List InputElem) (options : List OptionElem)
    (langText : Option (List Char)) (docLang : List Char) : LMState :=
  initLM ⟨Lang.en, storage, elems, inputs, options, langText, docLang⟩

/-- The `#applicationModal` element: its inline `display` style and
whether the `active` class is present. -/
structure ModalElem where
  display : List Char
  active : Bool
deriving DecidableEq

/-- Result of running a JavaScript event handler: normal completion
with a value, or an uncaught TypeError. -/
inductive JsOutcome (α : Type)
  | ok (a : α)
  | typeError
deriving DecidableEq

/-- The Escape-keydown handler body (script.js:412-416):
`document.getElementById('applicationModal').style.display !== 'none'`
is evaluated with no null check, so an absent modal element makes the
member access throw a TypeError. On normal completion the returned
Bool says whether `closeModal()` was invoked. -/
def escapeKeydown (modal : Option ModalElem) : JsOutcome Bool :=
  match modal with
  | none => JsOutcome.typeError
  | some m => JsOutcome.ok (!(m.display == ("none".data)))

/-- The document state addressed by `openModal`: the optional modal
element and `document.body.style.overflow`. -/
structure ModalDoc where
  modal : Option ModalElem
  bodyOverflow : List Char
deriving DecidableEq

/-- `JobReadyApp.openModal` (script.js:430-448): guarded by
`if (modal)`, so an absent element is a no-op; otherwise the dialog is
shown, activated, and body scroll is trapped. -/
def openModal (d : ModalDoc) : ModalDoc :=
  match d.modal with
  | none => d
  | some m =>
    { d with modal := some { m with display := "block".data, active := true },
             bodyOverflow := "hidden".data }

/-- Modelled from the claim's wording (spec-side definition, to be
compared with the source's email regex): the value has the standard
`local@domain.tld` shape — a non-empty local part, `'@'`, a non-empty
domain, `'.'`, a non-empty tld, with no whitespace and no extra
`'@'`. -/
def emailShapeSpec (v : List Char) : Prop :=
  ∃ L D T : List Char,
    v = L ++ '@' :: (D ++ '.' :: T) ∧ L ≠ [] ∧ D ≠ [] ∧ T ≠ [] ∧
    (∀ c ∈ v, isJsWhitespace c = false) ∧ List.count '@' v = 1

/-- Modelled from the claim's wording (spec-side definition, to be
compared with the source's phone regex): exactly 10 digits whose first
digit is one of 6, 7, 8, 9. -/
def phoneShapeSpec (v : List Char) : Prop :=
  v.length = 10 ∧ (∀ c ∈ v, c.isDigit = true) ∧
    ∃ c rest, v = c :: rest ∧ (c = '6' ∨ c = '7' ∨ c = '8' ∨ c = '9')

/-- A tagged element is synchronized with language `l` when its content
is exactly what a rewrite to `l` shows, and its other-language payload
keeps the two rewrite branches stable: a highlight element's
other-language payload must contain the other emphasized phrase, and a
plain element's other-language payload must not contain the highlight
marker. -/
def elemSynced (l : Lang) (e : TaggedElem) : Bool :=
  if containsSub highlightMarker e.content then
    e.content == replaceOnce (phraseOf l) (wrappedPhrase l) (elemData l e) &&
      containsSub (phraseOf (otherLang l)) (elemData (otherLang l) e)
  else
    e.content == elemData l e &&
      !containsSub highlightMarker (elemData (otherLang l) e)

/-- The whole language state is synchronized with its current language:
storage holds the current language's code, every tagged element,
placeholder, and option shows its current-language payload, the toggle
button (when present) advertises the other language, and the document
language matches. -/
def langSynced (s : LMState) : Bool :=
  (match s.storage with
   | none => false
   | some v => v == langCode s.currentLanguage) &&
  s.elems.all (elemSynced s.currentLanguage) &&
  s.inputs.all (fun i => i.placeholder == placeholderData s.currentLanguage i) &&
  s.options.all (fun o => o.content == optionData s.currentLanguage o) &&
  (match s.langText with
   | none => true
   | some t => t == buttonLabel s.currentLanguage) &&
  s.docLang == langCode s.currentLanguage

/-- Example form for C3: a single required email field left blank. -/
def exInvalidForm : AppState :=
  ⟨[⟨"email".data, "".data, true, Validity.Untouched⟩], 0, 0, []⟩

/-- Example form for C4: a required email field filled validly plus a
non-required empty message field. -/
def exValidForm : AppState :=
  ⟨[⟨"email".data, "a@b.c".data, true, Validity.Untouched⟩,
    ⟨"message".data, "".data, false, Validity.Untouched⟩], 0, 0, []⟩

/-- Example form for C5: a single valid required field, nothing in
flight yet. -/
def exDoubleSubmit : AppState :=
  ⟨[⟨"email".data, "a@b.c".data, true, Validity.Untouched⟩], 0, 0, []⟩

/-- Example field for C6: a required email field with a non-empty,
badly formatted value. -/
def exField : FieldState :=
  ⟨"email".data, "x".data, true, Validity.Untouched⟩

/-- Example state for the C7 counterexample: English is current but the
persisted value is absent and the tagged element does not show its
English payload. -/
def exDesynced : LMState :=
  ⟨Lang.en, none,
   [⟨"Hello".data, "Welcome".data, "namaste".data⟩],
   [], [], none, "en".data⟩

/-- Example state for the C7 witness: an English state synchronized in
the sense of `langSynced`, with one highlight element and one plain
element, a placeholder, an option, and the toggle button. -/
def exSynced : LMState :=
  ⟨Lang.en, some ("en".data),
   [⟨"Ready in <span class=\"highlight\">2 Days</span>".data,
     "Ready in 2 Days".data, "2 दिन में तैयार".data⟩,
    ⟨"Welcome".data, "Welcome".data, "स्वागत".data⟩],
   [⟨"Your name".data, "Your name".data, "आपका नाम".data⟩],
   [⟨"Select".data, "Select".data, "चुनें".data⟩],
   some ("हिंदी".data), "en".data⟩

end JobReady

namespace JobReady

/-- Dropping while a predicate holds of every element empties the list. -/
theorem dropWhile_of_all (p : Char → Bool) :
    ∀ l : List Char, l.all p = true → l.dropWhile p = [] := by
  intro l h
  induction l with
  | nil => rfl
  | cons c rest ih =>
    rw [List.all_cons, Bool.and_eq_true] at h
    rw [List.dropWhile_cons, if_pos h.1]
    exact ih h.2

/-- A value consisting only of whitespace trims to the empty string. -/
theorem trimJs_of_all_ws (v : List Char) (h : v.all isJsWhitespace = true) :
    trimJs v = [] := by
  unfold trimJs
  rw [dropWhile_of_all _ v h]
  rfl

/-- Unfolding of the classification computed by `validateField`. -/
theorem validateField_eq (n v : List Char) (r : Bool) :
    validateField n v r =
      (if r && (trimJs v).isEmpty then false
       else if !(trimJs v).isEmpty then
         (if n = "email".data then emailTest (trimJs v)
          else if n = "phone".data then phoneTest (trimJs v)
          else true)
       else true) := rfl

/-- A list is a Boolean prefix of itself followed by anything. -/
theorem isPrefixOf_self_append (p z : List Char) :
    p.isPrefixOf (p ++ z) = true := by
  simp [List.isPrefixOf_iff_prefix]

/-- A string containing `p` followed by anything contains `p`. -/
theorem containsSub_append_self (p : List Char) :
    ∀ x z : List Char, containsSub p (x ++ (p ++ z)) = true := by
  intro x
  induction x with
  | nil =>
    intro z
    simp only [List.nil_append]
    cases hpz : p ++ z with
    | nil =>
      have hp : p = [] := by
        cases p with
        | nil => rfl
        | cons a q => simp at hpz
      subst hp
      simp [containsSub, List.isPrefixOf]
    | cons c rest =>
      have h1 : p.isPrefixOf (c :: rest) = true := by
        rw [← hpz]
        exact isPrefixOf_self_append p z
      simp [containsSub, h1]
  | cons c x ih =>
    intro z
    have hstep : containsSub p ((c :: x) ++ (p ++ z)) =
        (p.isPrefixOf ((c :: x) ++ (p ++ z)) || containsSub p (x ++ (p ++ z))) := rfl
    rw [hstep, ih z, Bool.or_true]

/-- `replaceOnce` on a string that contains the pattern splits around
the replacement. -/
theorem replaceOnce_decomp (pat rep : List Char) :
    ∀ s : List Char, containsSub pat s = true →
      ∃ x y, replaceOnce pat rep s = x ++ (rep ++ y) := by
  intro s
  induction s with
  | nil =>
    intro h
    refine ⟨[], [], ?_⟩
    simp only [containsSub] at h
    simp [replaceOnce, h]
  | cons c rest ih =>
    intro h
    by_cases hp : pat.isPrefixOf (c :: rest) = true
    · refine ⟨[], (c :: rest).drop pat.length, ?_⟩
      simp [replaceOnce, hp]
    · simp only [containsSub, Bool.or_eq_true] at h
      rcases h with h | h
      · exact absurd h hp
      · obtain ⟨x, y, hxy⟩ := ih h
        refine ⟨c :: x, y, ?_⟩
        simp [replaceOnce, hp, hxy]

/-- Replacing a contained pattern by a string that starts with the
highlight marker yields a string containing the marker. -/
theorem containsSub_replaceOnce (pat w s : List Char)
    (h : containsSub pat s = true) :
    containsSub highlightMarker (replaceOnce pat (highlightMarker ++ w) s) = true := by
  obtain ⟨x, y, hxy⟩ := replaceOnce_decomp pat (highlightMarker ++ w) s h
  rw [hxy, List.append_assoc]
  exact containsSub_append_self highlightMarker x (w ++ y)

/-- `splitAtSign` succeeds exactly by splitting at the first `'@'`. -/
theorem splitAtSign_sound :
    ∀ s l r : List Char, splitAtSign s = some (l, r) →
      s = l ++ '@' :: r ∧ '@' ∉ l := by
  intro s
  induction s with
  | nil => intro l r h; simp [splitAtSign] at h
  | cons c rest ih =>
    intro l r h
    by_cases hc : c = '@'
    · subst hc
      simp [splitAtSign] at h
      obtain ⟨hl, hr⟩ := h
      subst hl; subst hr
      exact ⟨rfl, by simp⟩
    · rw [show splitAtSign (c :: rest) =
          (match splitAtSign rest with
           | some (l, r) => some (c :: l, r)
           | none => none) by simp [splitAtSign, hc]] at h
      cases hres : splitAtSign rest with
      | none => rw [hres] at h; simp at h
      | some p =>
        obtain ⟨l', r'⟩ := p
        rw [hres] at h
        simp only [Option.some.injEq, Prod.mk.injEq] at h
        obtain ⟨hl, hr⟩ := h
        subst hl; subst hr
        obtain ⟨hs, hm⟩ := ih l' r' hres
        constructor
        · rw [List.cons_append, ← hs]
        · simp [List.mem_cons, hm]
          exact fun he => hc he.symm

/-- Splitting a string whose head part has no `'@'` finds that split. -/
theorem splitAtSign_complete :
    ∀ l r : List Char, '@' ∉ l → splitAtSign (l ++ '@' :: r) = some (l, r) := by
  intro l
  induction l with
  | nil => intro r _; simp [splitAtSign]
  | cons c cs ih =>
    intro r hm
    have hc : ¬(c = '@') := fun he => hm (he ▸ List.mem_cons_self c cs)
    have hcs : '@' ∉ cs := fun hmem => hm (List.mem_cons_of_mem c hmem)
    simp [splitAtSign, hc, ih r hcs]

/-- A dot before the last position, from an explicit decomposition. -/
theorem hasDotBeforeLast_intro :
    ∀ x y : List Char, y ≠ [] → hasDotBeforeLast (x ++ '.' :: y) = true := by
  intro x
  induction x with
  | nil =>
    intro y hy
    cases y with
    | nil => exact absurd rfl hy
    | cons b bs => simp [hasDotBeforeLast]
  | cons c cs ih =>
    intro y hy
    cases hcs : cs ++ '.' :: y with
    | nil => simp at hcs
    | cons d rest =>
      have h1 : hasDotBeforeLast (c :: d :: rest) =
          (c == '.' || hasDotBeforeLast (d :: rest)) := rfl
      rw [show (c :: cs) ++ '.' :: y = c :: (cs ++ '.' :: y) from rfl, hcs, h1,
        ← hcs, ih y hy, Bool.or_true]

/-- A dot before the last position yields an explicit decomposition. -/
theorem hasDotBeforeLast_elim :
    ∀ t : List Char, hasDotBeforeLast t = true →
      ∃ x y, t = x ++ '.' :: y ∧ y ≠ [] := by
  intro t
  induction t with
  | nil => intro h; simp [hasDotBeforeLast] at h
  | cons a t ih =>
    intro h
    cases t with
    | nil => simp [hasDotBeforeLast] at h
    | cons b bs =>
      rw [show hasDotBeforeLast (a :: b :: bs) =
          (a == '.' || hasDotBeforeLast (b :: bs)) from rfl,
        Bool.or_eq_true] at h
      rcases h with h | h
      · refine ⟨[], b :: bs, ?_, by simp⟩
        have : a = '.' := by simpa using h
        rw [this]; rfl
      · obtain ⟨x, y, hxy, hy⟩ := ih h
        exact ⟨a :: x, y, by rw [List.cons_append, ← hxy], hy⟩

/-- `isEmailChar` unpacked. -/
theorem isEmailChar_iff (c : Char) :
    isEmailChar c = true ↔ (isJsWhitespace c = false ∧ ¬(c = '@')) := by
  simp [isEmailChar]

/-- The email regex accepts exactly the values of the
`local@domain.tld` shape described in the specification. -/
theorem emailTest_iff (v : List Char) :
    emailTest v = true ↔ emailShapeSpec v := by
  constructor
  · intro h
    unfold emailTest at h
    cases hsp : splitAtSign v with
    | none => rw [hsp] at h; simp at h
    | some p =>
      obtain ⟨l, r⟩ := p
      rw [hsp] at h
      simp only [Bool.and_eq_true, Bool.not_eq_true'] at h
      obtain ⟨⟨⟨⟨hle, hla⟩, hre⟩, hra⟩, hdot⟩ := h
      obtain ⟨hv, hmem⟩ := splitAtSign_sound v l r hsp
      cases hr : r with
      | nil => rw [hr] at hdot; simp [hasInteriorDot] at hdot
      | cons d0 rest =>
        rw [hr] at hdot
        obtain ⟨x, y, hxy, hy⟩ := hasDotBeforeLast_elim rest hdot
        refine ⟨l, d0 :: x, y, ?_, ?_, by simp, hy, ?_, ?_⟩
        · rw [hv, hr, hxy]; rfl
        · intro he; rw [he] at hle; simp [List.isEmpty] at hle
        · intro c hc
          rw [hv] at hc
          rcases List.mem_append.mp hc with hcl | hcr
          · exact ((isEmailChar_iff c).mp (List.all_eq_true.mp hla c hcl)).1
          · rcases List.mem_cons.mp hcr with hceq | hcr2
            · rw [hceq]; rfl
            · exact ((isEmailChar_iff c).mp (List.all_eq_true.mp hra c hcr2)).1
        · have hcl : List.count '@' l = 0 := by
            rw [List.count_eq_zero]
            intro hcmem
            exact ((isEmailChar_iff '@').mp
              (List.all_eq_true.mp hla '@' hcmem)).2 rfl
          have hcr : List.count '@' r = 0 := by
            rw [List.count_eq_zero]
            intro hcmem
            exact ((isEmailChar_iff '@').mp
              (List.all_eq_true.mp hra '@' hcmem)).2 rfl
          rw [hv, List.count_append, List.count_cons_self, hcl, hcr]
  · rintro ⟨L, D, T, hv, hL, hD, hT, hws, hcount⟩
    have hcnt : List.count '@' L + (List.count '@' D +
        (List.count '@' T + 1)) = 1 := by
      rw [hv] at hcount
      rw [List.count_append, List.count_cons_self, List.count_append,
        List.count_cons] at hcount
      simp only [show (('.' : Char) == '@') = false from rfl] at hcount
      omega
    have hLnot : '@' ∉ L := List.count_eq_zero.mp (by omega)
    have hDnot : '@' ∉ D := List.count_eq_zero.mp (by omega)
    have hTnot : '@' ∉ T := List.count_eq_zero.mp (by omega)
    have hsp : splitAtSign v = some (L, D ++ '.' :: T) := by
      rw [hv]; exact splitAtSign_complete L (D ++ '.' :: T) hLnot
    have hchar : ∀ c ∈ v, ¬(c = '@') → isEmailChar c = true := by
      intro c hc hne
      exact (isEmailChar_iff c).mpr ⟨hws c hc, hne⟩
    unfold emailTest
    rw [hsp]
    simp only [Bool.and_eq_true, Bool.not_eq_true']
    refine ⟨⟨⟨⟨?_, ?_⟩, ?_⟩, ?_⟩, ?_⟩
    · cases L with
      | nil => exact absurd rfl hL
      | cons a as => rfl
    · rw [List.all_eq_true]
      intro c hc
      refine hchar c ?_ (fun he => hLnot (he ▸ hc))
      rw [hv]
      exact List.mem_append.mpr (Or.inl hc)
    · cases D with
      | nil => exact absurd rfl hD
      | cons a as => rfl
    · rw [List.all_eq_true]
      intro c hc
      have hcv : c ∈ v := by
        rw [hv]
        exact List.mem_append.mpr (Or.inr (List.mem_cons_of_mem '@' hc))
      refine hchar c hcv (fun he => ?_)
      subst he
      rcases List.mem_append.mp hc with h1 | h2
      · exact hDnot h1
      · rcases List.mem_cons.mp h2 with h3 | h4
        · exact absurd h3.symm (by decide)
        · exact hTnot h4
    · cases D with
      | nil => exact absurd rfl hD
      | cons a as =>
        rw [show hasInteriorDot ((a :: as) ++ '.' :: T) =
            hasDotBeforeLast (as ++ '.' :: T) from rfl]
        exact hasDotBeforeLast_intro as T hT

/-- The empty string does not have the email shape. -/
theorem emailShapeSpec_nil : ¬ emailShapeSpec [] := by
  rintro ⟨L, D, T, hv, hL, -, -, -, -⟩
  cases L with
  | nil => exact List.cons_ne_nil _ _ hv.symm
  | cons a as => exact List.cons_ne_nil _ _ hv.symm

/-- Blanket characterization of `validateBusinessForm`: the required
fields get their markers rewritten, validity is the conjunction of the
per-field classifications of the required fields, and the error list
has one display-name message per invalid required field, in order. -/
theorem validateBusinessForm_spec (fs : List FieldState) :
    validateBusinessForm fs =
      (fs.map (fun f => if f.required then (validateFieldEff f).1 else f),
       fs.all (fun f => !f.required || (validateFieldEff f).2),
       (fs.filter (fun f => f.required && !(validateFieldEff f).2)).map
         (fun f => errorMessageFor f.name)) := by
  induction fs with
  | nil => rfl
  | cons f rest ih =>
    rw [show validateBusinessForm (f :: rest) =
        (let r := validateBusinessForm rest
         if f.required then
           ((validateFieldEff f).1 :: r.1,
            ((validateFieldEff f).2 && r.2.1),
            (if (validateFieldEff f).2 then r.2.2
             else errorMessageFor f.name :: r.2.2))
         else (f :: r.1, r.2.1, r.2.2)) from rfl]
    rw [ih]
    by_cases hr : f.required
    · cases hv : (validateFieldEff f).2 <;>
        simp [hr, hv, List.filter_cons, List.all_cons]
    · have hnr : f.required = false := by simpa using hr
      simp [hnr, List.filter_cons, List.all_cons]

/-- Clearing a field erases the effect of a prior marker rewrite. -/
theorem clearField_validateFieldEff (f : FieldState) :
    clearField (if f.required then (validateFieldEff f).1 else f) = clearField f := by
  by_cases hr : f.required <;> simp [clearField, validateFieldEff, hr]

/-- A map whose function fixes every element of the list is the
identity on that list. -/
theorem list_map_self {α : Type} (f : α → α) :
    ∀ xs : List α, (∀ x ∈ xs, f x = x) → xs.map f = xs := by
  intro xs h
  induction xs with
  | nil => rfl
  | cons x rest ih =>
    rw [List.map_cons, h x (List.mem_cons_self x rest),
      ih (fun y hy => h y (List.mem_cons_of_mem x hy))]

/-- A tagged element synchronized with `l` is restored by a rewrite to
the other language followed by a rewrite back to `l`. -/
theorem updateElem_roundtrip (l : Lang) (e : TaggedElem)
    (h : elemSynced l e = true) :
    updateElem l (updateElem (otherLang l) e) = e := by
  obtain ⟨ec, eEn, eHi⟩ := e
  cases l with
  | en =>
    by_cases hc : containsSub highlightMarker ec = true
    · simp only [elemSynced, hc, if_true, Bool.and_eq_true, beq_iff_eq,
        elemData, otherLang] at h
      obtain ⟨hcon, hph⟩ := h
      have h2 : containsSub highlightMarker
          (replaceOnce (phraseOf Lang.hi) (wrappedPhrase Lang.hi) eHi) = true := by
        rw [show wrappedPhrase Lang.hi =
            highlightMarker ++ (phraseOf Lang.hi ++ ("</span>".data)) from rfl]
        exact containsSub_replaceOnce _ _ _ hph
      subst hcon
      simp [updateElem, otherLang, elemData, hc, h2]
    · have hc' : containsSub highlightMarker ec = false := by simpa using hc
      simp only [elemSynced, hc', Bool.false_eq_true, if_false, Bool.and_eq_true,
        beq_iff_eq, Bool.not_eq_true', elemData, otherLang] at h
      obtain ⟨hcon, hnd⟩ := h
      subst hcon
      simp [updateElem, otherLang, elemData, hc', hnd]
  | hi =>
    by_cases hc : containsSub highlightMarker ec = true
    · simp only [elemSynced, hc, if_true, Bool.and_eq_true, beq_iff_eq,
        elemData, otherLang] at h
      obtain ⟨hcon, hph⟩ := h
      have h2 : containsSub highlightMarker
          (replaceOnce (phraseOf Lang.en) (wrappedPhrase Lang.en) eEn) = true := by
        rw [show wrappedPhrase Lang.en =
            highlightMarker ++ (phraseOf Lang.en ++ ("</span>".data)) from rfl]
        exact containsSub_replaceOnce _ _ _ hph
      subst hcon
      simp [updateElem, otherLang, elemData, hc, h2]
    · have hc' : containsSub highlightMarker ec = false := by simpa using hc
      simp only [elemSynced, hc', Bool.false_eq_true, if_false, Bool.and_eq_true,
        beq_iff_eq, Bool.not_eq_true', elemData, otherLang] at h
      obtain ⟨hcon, hnd⟩ := h
      subst hcon
      simp [updateElem, otherLang, elemData, hc', hnd]

/-- Two toggles restore a synchronized language state. -/
theorem toggle_toggle_of_synced (s : LMState) (h : langSynced s = true) :
    toggle (toggle s) = s := by
  obtain ⟨l, st, es, is0, os, lt, dl⟩ := s
  cases st with
  | none => simp [langSynced] at h
  | some v =>
    simp only [langSynced, Bool.and_eq_true, beq_iff_eq] at h
    obtain ⟨⟨⟨⟨⟨h1, h2⟩, h3⟩, h4⟩, h5⟩, h6⟩ := h
    cases l with
    | en =>
      have hes : (es.map (updateElem Lang.hi)).map (updateElem Lang.en) = es := by
        rw [List.map_map]
        refine list_map_self _ es (fun e he => ?_)
        exact updateElem_roundtrip Lang.en e (List.all_eq_true.mp h2 e he)
      have his : (is0.map (updateInput Lang.hi)).map (updateInput Lang.en) = is0 := by
        rw [List.map_map]
        refine list_map_self _ is0 (fun i hi => ?_)
        have hp : i.placeholder = placeholderData Lang.en i := by
          simpa using List.all_eq_true.mp h3 i hi
        obtain ⟨p, pEn, pHi⟩ := i
        simp only [placeholderData] at hp
        simp [Function.comp_def, updateInput, placeholderData, hp]
      have hos : (os.map (updateOption Lang.hi)).map (updateOption Lang.en) = os := by
        rw [List.map_map]
        refine list_map_self _ os (fun o ho => ?_)
        have hp : o.content = optionData Lang.en o := by
          simpa using List.all_eq_true.mp h4 o ho
        obtain ⟨c, oEn, oHi⟩ := o
        simp only [optionData] at hp
        simp [Function.comp_def, updateOption, optionData, hp]
      have hlt : (lt.map (fun _ => buttonLabel Lang.hi)).map
          (fun _ => buttonLabel Lang.en) = lt := by
        cases lt with
        | none => rfl
        | some t =>
          have ht : t = buttonLabel Lang.en := by simpa using h5
          simp [ht]
      rw [show toggle (toggle ⟨Lang.en, some v, es, is0, os, lt, dl⟩) =
          (⟨Lang.en, some (langCode Lang.en),
            (es.map (updateElem Lang.hi)).map (updateElem Lang.en),
            (is0.map (updateInput Lang.hi)).map (updateInput Lang.en),
            (os.map (updateOption Lang.hi)).map (updateOption Lang.en),
            (lt.map (fun _ => buttonLabel Lang.hi)).map (fun _ => buttonLabel Lang.en),
            langCode Lang.en⟩ : LMState) from rfl]
      rw [hes, his, hos, hlt, h1, h6]
    | hi =>
      have hes : (es.map (updateElem Lang.en)).map (updateElem Lang.hi) = es := by
        rw [List.map_map]
        refine list_map_self _ es (fun e he => ?_)
        exact updateElem_roundtrip Lang.hi e (List.all_eq_true.mp h2 e he)
      have his : (is0.map (updateInput Lang.en)).map (updateInput Lang.hi) = is0 := by
        rw [List.map_map]
        refine list_map_self _ is0 (fun i hi => ?_)
        have hp : i.placeholder = placeholderData Lang.hi i := by
          simpa using List.all_eq_true.mp h3 i hi
        obtain ⟨p, pEn, pHi⟩ := i
        simp only [placeholderData] at hp
        simp [Function.comp_def, updateInput, placeholderData, hp]
      have hos : (os.map (updateOption Lang.en)).map (updateOption Lang.hi) = os := by
        rw [List.map_map]
        refine list_map_self _ os (fun o ho => ?_)
        have hp : o.content = optionData Lang.hi o := by
          simpa using List.all_eq_true.mp h4 o ho
        obtain ⟨c, oEn, oHi⟩ := o
        simp only [optionData] at hp
        simp [Function.comp_def, updateOption, optionData, hp]
      have hlt : (lt.map (fun _ => buttonLabel Lang.en)).map
          (fun _ => buttonLabel Lang.hi) = lt := by
        cases lt with
        | none => rfl
        | some t =>
          have ht : t = buttonLabel Lang.hi := by simpa using h5
          simp [ht]
      rw [show toggle (toggle ⟨Lang.hi, some v, es, is0, os, lt, dl⟩) =
          (⟨Lang.hi, some (langCode Lang.hi),
            (es.map (updateElem Lang.en)).map (updateElem Lang.hi),
            (is0.map (updateInput Lang.en)).map (updateInput Lang.hi),
            (os.map (updateOption Lang.en)).map (updateOption Lang.hi),
            (lt.map (fun _ => buttonLabel Lang.en)).map (fun _ => buttonLabel Lang.hi),
            langCode Lang.hi⟩ : LMState) from rfl]
      rw [hes, his, hos, hlt, h1, h6]

/-- The phone regex accepts exactly the 10-digit strings whose first
digit is 6, 7, 8 or 9. -/
theorem phoneTest_iff (v : List Char) :
    phoneTest v = true ↔ phoneShapeSpec v := by
  cases v with
  | nil => simp [phoneTest, phoneShapeSpec]
  | cons c rest =>
    simp only [phoneTest, phoneShapeSpec, Bool.and_eq_true, Bool.or_eq_true,
      beq_iff_eq, List.length_cons, List.all_eq_true, or_assoc]
    constructor
    · rintro ⟨⟨hfirst, hlen⟩, hdig⟩
      refine ⟨by omega, ?_, c, rest, rfl, hfirst⟩
      intro x hx
      rcases List.mem_cons.mp hx with he | hm
      · subst he
        rcases hfirst with h | h | h | h <;> (subst h; rfl)
      · exact hdig x hm
    · rintro ⟨hlen, hdig, c', rest', heq, hfirst⟩
      cases heq
      refine ⟨⟨hfirst, by omega⟩, ?_⟩
      intro x hx
      exact hdig x (List.mem_cons_of_mem c hx)

/-- C1 (counterexample): the claim's iff fails on the raw value — the
code trims before testing, so `" a@b.c "` (whitespace at both ends,
hence not of the claimed shape) is still classified Valid for a
required email field. -/
theorem c1_counterexample :
    validateField ("email".data) (" a@b.c ".data) true = true ∧
    ¬ emailShapeSpec (" a@b.c ".data) := by
  refine ⟨by decide, ?_⟩
  rintro ⟨L, D, T, hv, hL, hD, hT, hws, hcount⟩
  have hmem : ' ' ∈ (" a@b.c ".data) := by decide
  exact absurd (hws ' ' hmem) (by decide)

/-- C1 (amended): for a required `email` field, `validateField` returns
Valid iff the TRIMMED value matches the standard `local@domain.tld`
shape (non-empty local part, `'@'`, non-empty domain, `'.'`, non-empty
tld, no whitespace or extra `'@'`); in particular it returns Invalid
for `""` and `"a@b"`, Valid for `"a@b.c"`, and Invalid for
`"notanemail"`. -/
theorem c1_email_validation :
    (∀ v : List Char,
      validateField ("email".data) v true = true ↔ emailShapeSpec (trimJs v)) ∧
    validateField ("email".data) ("".data) true = false ∧
    validateField ("email".data) ("a@b".data) true = false ∧
    validateField ("email".data) ("a@b.c".data) true = true ∧
    validateField ("email".data) ("notanemail".data) true = false := by
  refine ⟨fun v => ?_, by decide, by decide, by decide, by decide⟩
  by_cases h : (trimJs v).isEmpty = true
  · have h0 : trimJs v = [] := List.isEmpty_iff.mp h
    constructor
    · intro hL
      rw [validateField_eq, if_pos (by simp [h])] at hL
      exact absurd hL (by simp)
    · intro hs
      rw [h0] at hs
      exact absurd hs emailShapeSpec_nil
  · have h' : (trimJs v).isEmpty = false := by simpa using h
    rw [validateField_eq, if_neg (by simp [h']), if_pos (by simp [h']),
      if_pos rfl]
    exact emailTest_iff (trimJs v)

/-- C2 (counterexample): the claim classifies every string of length
other than 10 as Invalid, but the code trims first: the 12-character
value `" 9876543210 "` is classified Valid for a phone field. -/
theorem c2_counterexample :
    validateField ("phone".data) (" 9876543210 ".data) true = true ∧
    (" 9876543210 ".data).length ≠ 10 := ⟨by decide, by decide⟩

/-- C2 (amended): for a `phone` field whose value is non-empty after
trimming (any `required` flag), `validateField` returns Valid iff the
TRIMMED value is exactly 10 digits whose first digit is one of
6, 7, 8, 9; 10-digit strings starting 0-5 and trimmed values of any
other length are classified Invalid. -/
theorem c2_phone_validation (v : List Char) (r : Bool) (h : trimJs v ≠ []) :
    validateField ("phone".data) v r = true ↔ phoneShapeSpec (trimJs v) := by
  have h' : (trimJs v).isEmpty = false := by
    cases he : (trimJs v).isEmpty
    · rfl
    · exact absurd (List.isEmpty_iff.mp he) h
  rw [validateField_eq, if_neg (by simp [h']), if_pos (by simp [h']),
    if_neg (by decide), if_pos rfl]
  exact phoneTest_iff (trimJs v)

/-- C2 witness: the amended theorem applied at `"9876543210"`. -/
theorem c2_phone_validation_witness :
    trimJs ("9876543210".data) ≠ [] ∧
    (validateField ("phone".data) ("9876543210".data) true = true ↔
      phoneShapeSpec (trimJs ("9876543210".data))) :=
  ⟨by decide, c2_phone_validation ("9876543210".data) true (by decide)⟩

/-- C3: when at least one required field classifies Invalid, a submit
attempt performs no submission-state transition — the loader count and
the number of in-flight submissions are untouched (record equality
keeps them at their old values), `submitApplication` is never invoked —
and synchronously appends exactly one Error notification titled
"Application Incomplete" whose body joins one display-name message per
invalid required field ("<display name> is required or invalid.", the
raw identifier as fallback inside `getFieldDisplayName`). -/
theorem c3_invalid_submit_rejected (s : AppState)
    (h : ∃ f ∈ s.fields, f.required = true ∧ (validateFieldEff f).2 = false) :
    handleFormSubmit s =
      { s with
        fields := s.fields.map (fun f => if f.required then (validateFieldEff f).1 else f),
        notifications := s.notifications ++
          [⟨NotifKind.error, "Application Incomplete".data,
            joinSpace ((s.fields.filter
                (fun f => f.required && !(validateFieldEff f).2)).map
              (fun f => errorMessageFor f.name))⟩] } := by
  obtain ⟨f, hf, hreq, hval⟩ := h
  have hall : s.fields.all (fun f => !f.required || (validateFieldEff f).2) = false := by
    cases hba : s.fields.all (fun f => !f.required || (validateFieldEff f).2)
    · rfl
    · have := List.all_eq_true.mp hba f hf
      rw [hreq, hval] at this
      exact absurd this (by decide)
  rw [show handleFormSubmit s =
      (let r := validateBusinessForm s.fields
       if r.2.1 then
         { s with fields := r.1, loaders := s.loaders + 1,
                  pendingSubmits := s.pendingSubmits + 1 }
       else
         { s with fields := r.1,
                  notifications := s.notifications ++
                    [⟨NotifKind.error, "Application Incomplete".data,
                      joinSpace r.2.2⟩] }) from rfl]
  rw [validateBusinessForm_spec]
  simp only [hall, Bool.false_eq_true, if_false]

/-- C3 witness: the theorem applied to a form whose only required field
(the email field) is blank; the display-name message appears. -/
theorem c3_invalid_submit_rejected_witness :
    (∃ f ∈ exInvalidForm.fields,
      f.required = true ∧ (validateFieldEff f).2 = false) ∧
    handleFormSubmit exInvalidForm =
      { exInvalidForm with
        fields := exInvalidForm.fields.map
          (fun f => if f.required then (validateFieldEff f).1 else f),
        notifications := exInvalidForm.notifications ++
          [⟨NotifKind.error, "Application Incomplete".data,
            joinSpace ((exInvalidForm.fields.filter
                (fun f => f.required && !(validateFieldEff f).2)).map
              (fun f => errorMessageFor f.name))⟩] } :=
  ⟨by decide, c3_invalid_submit_rejected exInvalidForm (by decide)⟩

/-- C4: when every required field classifies Valid, a submit attempt
shows the loader (count goes up by one) and starts one in-flight
submission without any notification yet; when its simulated-delay timer
completes, the loader is hidden again (count back to its old value, as
part of the record equality), exactly one Success notification is
appended, and every field is cleared: value emptied and validity marker
reset to Untouched. -/
theorem c4_valid_submit_flow (s : AppState)
    (h : s.fields.all (fun f => !f.required || (validateFieldEff f).2) = true) :
    (handleFormSubmit s).loaders = s.loaders + 1 ∧
    (handleFormSubmit s).pendingSubmits = s.pendingSubmits + 1 ∧
    (handleFormSubmit s).notifications = s.notifications ∧
    completeSubmission (handleFormSubmit s) =
      { s with fields := s.fields.map clearField,
               notifications := s.notifications ++ [successNotification] } := by
  have hstep : handleFormSubmit s =
      { s with
        fields := s.fields.map (fun f => if f.required then (validateFieldEff f).1 else f),
        loaders := s.loaders + 1,
        pendingSubmits := s.pendingSubmits + 1 } := by
    rw [show handleFormSubmit s =
        (let r := validateBusinessForm s.fields
         if r.2.1 then
           { s with fields := r.1, loaders := s.loaders + 1,
                    pendingSubmits := s.pendingSubmits + 1 }
         else
           { s with fields := r.1,
                    notifications := s.notifications ++
                      [⟨NotifKind.error, "Application Incomplete".data,
                        joinSpace r.2.2⟩] }) from rfl]
    rw [validateBusinessForm_spec]
    simp only [h, if_true]
  rw [hstep]
  refine ⟨rfl, rfl, rfl, ?_⟩
  show ({ s with
      fields := (s.fields.map
        (fun f => if f.required then (validateFieldEff f).1 else f)).map clearField,
      loaders := (s.loaders + 1) - 1,
      pendingSubmits := (s.pendingSubmits + 1) - 1,
      notifications := s.notifications ++ [successNotification] } : AppState) = _
  rw [List.map_map, Nat.add_sub_cancel, Nat.add_sub_cancel]
  have hfields : s.fields.map
      (clearField ∘ fun f => if f.required then (validateFieldEff f).1 else f) =
      s.fields.map clearField := by
    refine List.map_congr_left (fun f hf => ?_)
    exact clearField_validateFieldEff f
  rw [hfields]

/-- C4 witness: the theorem applied to a validly filled form (one
required valid email field, one optional blank field). -/
theorem c4_valid_submit_flow_witness :
    exValidForm.fields.all
      (fun f => !f.required || (validateFieldEff f).2) = true ∧
    ((handleFormSubmit exValidForm).loaders = exValidForm.loaders + 1 ∧
     (handleFormSubmit exValidForm).pendingSubmits = exValidForm.pendingSubmits + 1 ∧
     (handleFormSubmit exValidForm).notifications = exValidForm.notifications ∧
     completeSubmission (handleFormSubmit exValidForm) =
       { exValidForm with
         fields := exValidForm.fields.map clearField,
         notifications := exValidForm.notifications ++ [successNotification] }) :=
  ⟨by decide, c4_valid_submit_flow exValidForm (by decide)⟩

/-- C5 (counterexample): there is no Idle-state precondition in the
code. From a fresh valid form, a first submit leaves one loader and one
in-flight submission; a second submit issued while that submission is
still in flight shows a SECOND loader and starts a SECOND submission
instead of being rejected or ignored. -/
theorem c5_counterexample :
    (handleFormSubmit exDoubleSubmit).loaders = 1 ∧
    (handleFormSubmit exDoubleSubmit).pendingSubmits = 1 ∧
    (handleFormSubmit (handleFormSubmit exDoubleSubmit)).loaders = 2 ∧
    (handleFormSubmit (handleFormSubmit exDoubleSubmit)).pendingSubmits = 2 := by
  decide

/-- C5 (amended): a second submit attempt issued while a submission is
in flight (at least one pending simulated delay) is NOT rejected or
ignored — `handleFormSubmit` has no Idle-state precondition, so as long
as the fields still validate it shows a second loader and starts a
second in-flight submission. -/
theorem c5_no_submit_serialization (s : AppState)
    (_hflight : 0 < s.pendingSubmits)
    (h : s.fields.all (fun f => !f.required || (validateFieldEff f).2) = true) :
    (handleFormSubmit s).loaders = s.loaders + 1 ∧
    (handleFormSubmit s).pendingSubmits = s.pendingSubmits + 1 := by
  rw [show handleFormSubmit s =
      (let r := validateBusinessForm s.fields
       if r.2.1 then
         { s with fields := r.1, loaders := s.loaders + 1,
                  pendingSubmits := s.pendingSubmits + 1 }
       else
         { s with fields := r.1,
                  notifications := s.notifications ++
                    [⟨NotifKind.error, "Application Incomplete".data,
                      joinSpace r.2.2⟩] }) from rfl]
  rw [validateBusinessForm_spec]
  simp [h]

/-- C5 witness: the amended theorem applied to the state reached after
a first submit of the example form (one submission in flight). -/
theorem c5_no_submit_serialization_witness :
    0 < (handleFormSubmit exDoubleSubmit).pendingSubmits ∧
    (handleFormSubmit exDoubleSubmit).fields.all
      (fun f => !f.required || (validateFieldEff f).2) = true ∧
    ((handleFormSubmit (handleFormSubmit exDoubleSubmit)).loaders =
        (handleFormSubmit exDoubleSubmit).loaders + 1 ∧
     (handleFormSubmit (handleFormSubmit exDoubleSubmit)).pendingSubmits =
        (handleFormSubmit exDoubleSubmit).pendingSubmits + 1) :=
  ⟨by decide, by decide,
   c5_no_submit_serialization (handleFormSubmit exDoubleSubmit)
     (by decide) (by decide)⟩

/-- C6 (counterexample): `validateField` is not side-effect free: on a
required email field holding `"x"`, it rewrites the enclosing group's
marker (to `error`, i.e. Invalid), so the field state it returns
differs from its input. -/
theorem c6_counterexample : (validateFieldEff exField).1 ≠ exField := by
  decide

/-- C6 (amended): the only effect of `validateField` beyond returning
the classification is the validity-marker rewrite it applies itself to
the field's enclosing group (the source removes the `error`/`success`
classes and re-adds one when the trimmed value is non-empty); the
field's name, value and required flag — and the classification
returned — are untouched. -/
theorem c6_marker_only_side_effect (f : FieldState) :
    (validateFieldEff f).1.name = f.name ∧
    (validateFieldEff f).1.value = f.value ∧
    (validateFieldEff f).1.required = f.required ∧
    (validateFieldEff f).1.validity =
      (if (trimJs f.value).isEmpty then Validity.Untouched
       else if (validateFieldEff f).2 then Validity.Valid else Validity.Invalid) ∧
    (validateFieldEff f).2 = validateField f.name f.value f.required := by
  obtain ⟨n, v, r, val⟩ := f
  refine ⟨rfl, rfl, rfl, ?_, rfl⟩
  show (if !(trimJs v).isEmpty then
          (if (validateFieldEff ⟨n, v, r, val⟩).2 then Validity.Valid
           else Validity.Invalid)
        else Validity.Untouched) = _
  cases he : (trimJs v).isEmpty <;> simp [he]

/-- C7 (counterexample): two toggles do not restore an arbitrary
starting state. With English current, no persisted value, and a tagged
element whose text differs from its `data-en` payload, two toggles
leave the storage written (`"en"` instead of absent) and the element
rewritten to its `data-en` payload instead of its original text. -/
theorem c7_counterexample :
    (toggle (toggle exDesynced)).storage ≠ exDesynced.storage ∧
    (toggle (toggle exDesynced)).elems ≠ exDesynced.elems := by
  decide

/-- C7 (amended): two toggles always return `currentLanguage` to its
original value; and whenever the starting state is synchronized with
its current language (`langSynced`: storage holds the current code,
every tagged element/placeholder/option shows its current-language
content — with the other-language payload of a highlight element
containing the other emphasized phrase and that of a plain element free
of the highlight marker — and the button advertises the other
language), two toggles restore the entire state: storage, every tagged
element, every placeholder, every option label, the button label, and
the document language. -/
theorem c7_toggle_roundtrip (s : LMState) :
    (toggle (toggle s)).currentLanguage = s.currentLanguage ∧
    (langSynced s = true → toggle (toggle s) = s) := by
  constructor
  · obtain ⟨l, st, es, is0, os, lt, dl⟩ := s
    cases l <;> rfl
  · exact toggle_toggle_of_synced s

/-- C7 witness: the amended theorem applied to a synchronized English
state holding a highlight element, a plain element, a placeholder, an
option and the toggle button. -/
theorem c7_toggle_roundtrip_witness :
    langSynced exSynced = true ∧ toggle (toggle exSynced) = exSynced :=
  ⟨by decide, (c7_toggle_roundtrip exSynced).2 (by decide)⟩

/-- C8: constructing the language manager with persisted value `"hi"`
ends with current = Hindi, the very same storage value (no write during
initialization), and every tagged element, placeholder and option
rewritten to its Hindi content (with the button label and document
language updated); with the key absent, or holding any value other
than `"hi"` (including the falsy empty string), current stays English
and storage is still untouched. -/
theorem c8_init_language (elems : List TaggedElem) (inputs : List InputElem)
    (options : List OptionElem) (langText : Option (List Char))
    (docLang : List Char) (v : List Char) (hv : v ≠ "hi".data) :
    (newLanguageManager (some ("hi".data)) elems inputs options langText docLang)
        = ⟨Lang.hi, some ("hi".data), elems.map (updateElem Lang.hi),
           inputs.map (updateInput Lang.hi), options.map (updateOption Lang.hi),
           langText.map (fun _ => buttonLabel Lang.hi), "hi".data⟩ ∧
    (newLanguageManager none elems inputs options langText docLang)
        = ⟨Lang.en, none, elems, inputs, options, langText, docLang⟩ ∧
    (newLanguageManager (some v) elems inputs options langText docLang).currentLanguage
        = Lang.en ∧
    (newLanguageManager (some v) elems inputs options langText docLang).storage
        = some v := by
  have hsaved : ¬((if v.isEmpty then "en".data else v) = "hi".data) := by
    intro heq
    by_cases hve : v.isEmpty = true
    · rw [if_pos hve] at heq
      exact absurd heq (by decide)
    · rw [if_neg hve] at heq
      exact hv heq
  refine ⟨rfl, rfl, ?_, ?_⟩
  · show (if (if v.isEmpty then "en".data else v) = "hi".data
        then switchToLang Lang.hi
          ⟨Lang.en, some v, elems, inputs, options, langText, docLang⟩
        else ⟨Lang.en, some v, elems, inputs, options, langText,
          docLang⟩).currentLanguage = Lang.en
    rw [if_neg hsaved]
  · show (if (if v.isEmpty then "en".data else v) = "hi".data
        then switchToLang Lang.hi
          ⟨Lang.en, some v, elems, inputs, options, langText, docLang⟩
        else ⟨Lang.en, some v, elems, inputs, options, langText,
          docLang⟩).storage = some v
    rw [if_neg hsaved]

/-- C8 witness: the theorem applied at an empty document, with `"xx"`
as the invalid persisted value. -/
theorem c8_init_language_witness :
    ("xx".data ≠ "hi".data) ∧
    ((newLanguageManager (some ("hi".data)) [] [] [] none ("en".data))
        = ⟨Lang.hi, some ("hi".data), [], [], [], none, "hi".data⟩ ∧
     (newLanguageManager none [] [] [] none ("en".data))
        = ⟨Lang.en, none, [], [], [], none, "en".data⟩ ∧
     (newLanguageManager (some ("xx".data)) [] [] [] none ("en".data)).currentLanguage
        = Lang.en ∧
     (newLanguageManager (some ("xx".data)) [] [] [] none ("en".data)).storage
        = some ("xx".data)) :=
  ⟨by decide, c8_init_language [] [] [] none ("en".data) ("xx".data) (by decide)⟩

/-- C9: the defensive no-op claim fails at exactly one handler. With
the `#applicationModal` element absent, `openModal` is a guarded no-op
as claimed, but the Escape-keydown handler dereferences the absent
element's `style` member without a null check and throws a TypeError
instead of no-opping. -/
theorem c9_escape_handler_crash :
    escapeKeydown none = JsOutcome.typeError ∧
    openModal ⟨none, "".data⟩ = ⟨none, "".data⟩ :=
  ⟨rfl, rfl⟩

/-- C10: a field whose value is only whitespace is classified exactly
as if the value were empty, because classification operates on the
trimmed value: Invalid when required, Valid when not (i.e. the result
is `!required`), and no email/phone format rule fires. -/
theorem c10_whitespace_only_value (n v : List Char) (r : Bool)
    (h : v.all isJsWhitespace = true) :
    validateField n v r = !r ∧
    validateField n v r = validateField n [] r := by
  have h0 : trimJs v = [] := trimJs_of_all_ws v h
  constructor
  · rw [validateField_eq, h0]
    cases r <;> simp
  · rw [validateField_eq, validateField_eq, h0]
    rfl

/-- C10 witness: the theorem applied to a required phone field holding
two spaces. -/
theorem c10_whitespace_only_value_witness :
    ("  ".data).all isJsWhitespace = true ∧
    (validateField ("phone".data) ("  ".data) true = !true ∧
     validateField ("phone".data) ("  ".data) true =
       validateField ("phone".data) [] true) :=
  ⟨by decide, c10_whitespace_only_value ("phone".data) ("  ".data) true (by decide)⟩

end JobReady
